import Mathlib

/- A shallow embedding of the poker session log analyzer in
   src/poker_analysis.py: the line classifiers (player name, amount,
   VPIP action, hand type), the two parsing passes
   (parse_buy_ins_and_stacks and parse_hands), the statistics
   aggregation (calculate_stats) and the report formulas
   (generate_report).

   Entries are lists of characters, monetary amounts are rationals,
   and a log is the list of entries in ascending sequence order (the
   Python code sorts the rows by their order column before each pass,
   so both passes consume the same ordered list). -/

namespace PokerNow

abbrev Entry := List Char

abbrev Player := List Char

inductive Phase where
  | preflop
  | flop
  | turn
  | river
  deriving DecidableEq

/- Lowercasing, mirroring Python's re.IGNORECASE on ASCII text. -/
def lcs (s : List Char) : List Char := s.map Char.toLower

/- Substring test, mirroring Python's `pat in s`. -/
def containsSub (pat : List Char) : List Char → Bool
  | [] => pat.isEmpty
  | c :: t => pat.isPrefixOf (c :: t) || containsSub pat t

/- Leftmost-position search: apply the anchored matcher f at every
   suffix from the left, returning the first hit.  This mirrors
   re.search, which tries each starting index in increasing order. -/
def searchPos {α : Type} (f : List Char → Option α) : List Char → Option α
  | [] => f []
  | c :: t =>
    match f (c :: t) with
    | some r => some r
    | none => searchPos f t

def digitsVal (ds : List Char) : ℕ := ds.foldl (fun n c => 10 * n + (c.toNat - 48)) 0

/- Rational arithmetic expressed through Rat.divInt and the num/den
   projections.  These are extensionally the field operations and the
   strict order of ℚ (proved below); this phrasing keeps every
   arithmetic step reducible, so that concrete runs of the analyzer
   can be evaluated inside proofs. -/
def qadd (a b : ℚ) : ℚ := Rat.divInt (a.num * b.den + b.num * a.den) (a.den * b.den)

def qsub (a b : ℚ) : ℚ := Rat.divInt (a.num * b.den - b.num * a.den) (a.den * b.den)

def qmul (a b : ℚ) : ℚ := Rat.divInt (a.num * b.num) (a.den * b.den)

def qdiv (a b : ℚ) : ℚ := Rat.divInt (a.num * b.den) (a.den * b.num)

def qlt (a b : ℚ) : Bool := a.num * b.den < b.num * a.den

/- The decimal value d1.d2 as a rational. -/
def decVal (ds fs : List Char) : ℚ :=
  Rat.divInt (digitsVal ds * 10 ^ fs.length + digitsVal fs) (10 ^ fs.length)

/- Anchored match of the regex `\d+\.\d+` (used by extract_amount):
   one or more digits, a literal dot, one or more digits.  Greedy
   digit runs are maximal, as in the Python engine. -/
def decAt (u : List Char) : Option ℚ :=
  let ds := u.takeWhile Char.isDigit
  if ds.isEmpty then none
  else
    match u.drop ds.length with
    | '.' :: r =>
      let fs := r.takeWhile Char.isDigit
      if fs.isEmpty then none
      else some (decVal ds fs)
    | _ => none

/- Anchored match of the regex `\d+(?:\.\d+)?`, returning the value
   and the remaining characters. -/
def numAt (u : List Char) : Option (ℚ × List Char) :=
  let ds := u.takeWhile Char.isDigit
  if ds.isEmpty then none
  else
    let rest := u.drop ds.length
    match rest with
    | '.' :: r =>
      let fs := r.takeWhile Char.isDigit
      if fs.isEmpty then some ((digitsVal ds : ℚ), rest)
      else some (decVal ds fs, r.drop fs.length)
    | _ => some ((digitsVal ds : ℚ), rest)

/- Anchored match of the regex `"([^"]+)"`: a double-quoted nonempty
   run of non-quote characters.  Returns the name and the rest. -/
def quotedAt (u : List Char) : Option (Player × List Char) :=
  match u with
  | '"' :: t =>
    let nm := t.takeWhile (· ≠ '"')
    if nm.isEmpty then none
    else
      match t.drop nm.length with
      | '"' :: r => some (nm, r)
      | _ => none
  | _ => none

/- extract_player_name: re.match of `^"([^"]+)"`, anchored at the
   start of the entry. -/
def extract_player_name (e : Entry) : Option Player := (quotedAt e).map (·.1)

/- extract_amount: re.search of `(\d+\.\d+)`; 0.0 when there is no
   match.  Note that a decimal point is required. -/
def extract_amount (e : Entry) : ℚ := (searchPos decAt e).getD 0

/- The five forced patterns of is_vpip_action, already lowercased. -/
def forcedPats : List (List Char) :=
  ["posts a big blind".data, "posts a small blind".data,
   "(big blind)".data, "(small blind)".data, "(ante)".data]

/- Search for a literal followed by `\d+\.\d+` (the shape of the four
   voluntary-action regexes). -/
def litNumHit (lit : List Char) (t : List Char) : Bool :=
  (searchPos (fun u =>
    if lit.isPrefixOf u then
      match decAt (u.drop lit.length) with
      | some _ => some ()
      | none => none
    else none) t).isSome

def volPats : List (List Char) :=
  ["calls ".data, "bets ".data, "raises to ".data, "posts a bet of ".data]

/- is_vpip_action: forced patterns are checked first and force a
   False result; otherwise any voluntary pattern yields True. -/
def isForcedEntry (e : Entry) : Bool := forcedPats.any (fun p => containsSub p (lcs e))

def isVolEntry (e : Entry) : Bool := volPats.any (fun p => litNumHit p (lcs e))

def is_vpip_action (e : Entry) : Bool :=
  if isForcedEntry e then false else isVolEntry e

/- extract_hand_type: ten regexes tried in order on the entry (with
   IGNORECASE), then the matched group is lowercased and normalized
   by a chain of substring tests.  Each matcher below works on the
   already-lowercased entry and returns the lowercased group of the
   leftmost match.  In the alternations `X|x [^(]+` the first
   alternative is a prefix of the second, so the first one always
   wins and the group is the fixed literal. -/
def litMatcher (lit grp : List Char) : List Char → Option (List Char) :=
  searchPos (fun u => if lit.isPrefixOf u then some grp else none)

def matchP1 : List Char → Option (List Char) :=
  litMatcher "with straight flush".data "straight flush".data

def matchP2 : List Char → Option (List Char) :=
  litMatcher "with four of a kind".data "four of a kind".data

def matchP3 : List Char → Option (List Char) :=
  litMatcher "with full house".data "full house".data

def matchP4 : List Char → Option (List Char) :=
  litMatcher "with flush".data "flush".data

/- `with (Straight[^,]*)`: the group is "straight" plus the greedy
   run of non-comma characters after it. -/
def matchP5 : List Char → Option (List Char) :=
  searchPos (fun u =>
    if ("with straight".data).isPrefixOf u then
      some ("straight".data ++ (u.drop 13).takeWhile (· ≠ ','))
    else none)

def matchP6 : List Char → Option (List Char) :=
  litMatcher "with three of a kind".data "three of a kind".data

/- `with (Two Pair[^,]*|two pair [^(]+)`: the first alternative wins
   whenever "two pair" is present, with its greedy non-comma tail. -/
def matchP7 : List Char → Option (List Char) :=
  searchPos (fun u =>
    if ("with two pair".data).isPrefixOf u then
      some ("two pair".data ++ (u.drop 13).takeWhile (· ≠ ','))
    else none)

/- `with (One Pair|Pair[^,]*|pair [^(]+)`: alternatives in order. -/
def matchP8 : List Char → Option (List Char) :=
  searchPos (fun u =>
    if ("with one pair".data).isPrefixOf u then some ("one pair".data)
    else if ("with pair".data).isPrefixOf u then
      some ("pair".data ++ (u.drop 9).takeWhile (· ≠ ','))
    else none)

/- `with ([A-Z] High)` with IGNORECASE: any ASCII letter, a space,
   then "high"; the lowercased group is the letter plus " high". -/
def matchP9 : List Char → Option (List Char) :=
  searchPos (fun u =>
    if ("with ".data).isPrefixOf u then
      match u.drop 5 with
      | c :: rest =>
        if ('a' ≤ c && c ≤ 'z') && (" high".data).isPrefixOf rest then
          some (c :: " high".data)
        else none
      | [] => none
    else none)

def matchP10 : List Char → Option (List Char) :=
  searchPos (fun u =>
    if ("with hi hand".data).isPrefixOf u then some ("hi hand".data)
    else if ("with low hand".data).isPrefixOf u then some ("low hand".data)
    else none)

def handTypeMatchers : List (List Char → Option (List Char)) :=
  [matchP1, matchP2, matchP3, matchP4, matchP5, matchP6, matchP7, matchP8, matchP9, matchP10]

def firstMatch {α : Type} : List (List Char → Option α) → List Char → Option α
  | [], _ => none
  | f :: fs, t =>
    match f t with
    | some r => some r
    | none => firstMatch fs t

/- The normalization chain applied to the lowercased group. -/
def normalizeHT (ht : List Char) : String :=
  if containsSub "straight flush".data ht then "Straight Flush"
  else if containsSub "four of a kind".data ht then "Four of a Kind"
  else if containsSub "full house".data ht then "Full House"
  else if containsSub "flush".data ht && !containsSub "straight".data ht then "Flush"
  else if containsSub "straight".data ht then "Straight"
  else if containsSub "three of a kind".data ht then "Three of a Kind"
  else if containsSub "two pair".data ht then "Two Pair"
  else if containsSub "pair".data ht || containsSub "one pair".data ht then "One Pair"
  else if containsSub "high".data ht then "High Card"
  else "Other"

def extract_hand_type (e : Entry) : String :=
  match firstMatch handTypeMatchers (lcs e) with
  | some g => normalizeHT g
  | none => "Didn\x27t Show"

/- ## Session-level pass: parse_buy_ins_and_stacks -/

/- Anchored tail of the buy-in regex starting at the quoted name:
   `approved the player "([^"]+)" participation with a stack of
   (\d+(?:\.\d+)?)`. -/
def buyInAt (u : List Char) : Option (Player × ℚ) :=
  if ("approved the player ".data).isPrefixOf u then
    match quotedAt (u.drop 20) with
    | some (nm, r) =>
      if (" participation with a stack of ".data).isPrefixOf r then
        (numAt (r.drop 31)).map (fun pr => (nm, pr.1))
      else none
    | none => none
  else none

def buyInMatch (e : Entry) : Option (Player × ℚ) := searchPos buyInAt e

/- `updated the player "([^"]+)" stack from (\d+(?:\.\d+)?) to
   (\d+(?:\.\d+)?)`. -/
def stackUpdateAt (u : List Char) : Option (Player × ℚ × ℚ) :=
  if ("updated the player ".data).isPrefixOf u then
    match quotedAt (u.drop 19) with
    | some (nm, r) =>
      if (" stack from ".data).isPrefixOf r then
        match numAt (r.drop 12) with
        | some (q1, r1) =>
          if (" to ".data).isPrefixOf r1 then
            (numAt (r1.drop 4)).map (fun pr => (nm, q1, pr.1))
          else none
        | none => none
      else none
    | none => none
  else none

def stackUpdateMatch (e : Entry) : Option (Player × ℚ × ℚ) := searchPos stackUpdateAt e

/- `reseting to (\d+(?:\.\d+)?) chips`; the branch is recognized but
   deliberately skipped by the source. -/
def resetAt (u : List Char) : Option Unit :=
  if ("reseting to ".data).isPrefixOf u then
    match numAt (u.drop 12) with
    | some (_, r) => if (" chips".data).isPrefixOf r then some () else none
    | none => none
  else none

def resetMatch (e : Entry) : Bool := (searchPos resetAt e).isSome

/- `"([^"]+)" quits the game with a stack of (\d+(?:\.\d+)?)`. -/
def cashOutAt (u : List Char) : Option (Player × ℚ) :=
  match quotedAt u with
  | some (nm, r) =>
    if (" quits the game with a stack of ".data).isPrefixOf r then
      (numAt (r.drop 32)).map (fun pr => (nm, pr.1))
    else none
  | none => none

def cashOutMatch (e : Entry) : Option (Player × ℚ) := searchPos cashOutAt e

/- One `"([^"]+)"\s*\((\d+(?:\.\d+)?)\)` pair, anchored. -/
def wsC (c : Char) : Bool :=
  c = ' ' || c = '\t' || c = '\n' || c = '\x0d' || c = '\x0b' || c = '\x0c'

def stackPairAt (u : List Char) : Option (Player × ℚ × List Char) :=
  match quotedAt u with
  | some (nm, r) =>
    match (r.dropWhile wsC) with
    | '(' :: r2 =>
      match numAt r2 with
      | some (q, r3) =>
        match r3 with
        | ')' :: r4 => some (nm, q, r4)
        | _ => none
      | none => none
    | _ => none
  | none => none

/- re.findall of the pair pattern: non-overlapping matches scanning
   left to right, resuming after each match.  The fuel argument is
   the length of the scanned list, which bounds the recursion since
   every step consumes at least one character. -/
def findStackPairsAux : ℕ → List Char → List (Player × ℚ)
  | 0, _ => []
  | _ + 1, [] => []
  | fuel + 1, c :: t =>
    match stackPairAt (c :: t) with
    | some (nm, q, rest) => (nm, q) :: findStackPairsAux fuel rest
    | none => findStackPairsAux fuel t

def findStackPairs (e : Entry) : List (Player × ℚ) := findStackPairsAux e.length e

/- re.findall of `"([^"]+)"` (used on stack-snapshot lines while a
   hand is open). -/
def findQuotedAux : ℕ → List Char → List Player
  | 0, _ => []
  | _ + 1, [] => []
  | fuel + 1, c :: t =>
    match quotedAt (c :: t) with
    | some (nm, rest) => nm :: findQuotedAux fuel rest
    | none => findQuotedAux fuel t

def findQuoted (e : Entry) : List Player := findQuotedAux e.length e

/- ## Player statistics record (the per-player defaultdict) -/

structure BettingAmounts where
  preflop : ℚ
  flop : ℚ
  turn : ℚ
  river : ℚ
  deriving DecidableEq

def addBetting (b : BettingAmounts) (ph : Phase) (a : ℚ) : BettingAmounts :=
  match ph with
  | Phase.preflop => { b with preflop := qadd b.preflop a }
  | Phase.flop => { b with flop := qadd b.flop a }
  | Phase.turn => { b with turn := qadd b.turn a }
  | Phase.river => { b with river := qadd b.river a }

structure PlayerStat where
  hands_dealt : ℕ
  vpip_hands : ℕ
  total_put_in_pot : ℚ
  total_winnings : ℚ
  wins : ℕ
  buy_ins : ℚ
  final_stack : ℚ
  cash_outs : ℚ
  admin_adjustments : ℚ
  hand_types_won : List (String × ℕ)
  betting_phase_amounts : BettingAmounts
  deriving DecidableEq

def initStat : PlayerStat :=
  { hands_dealt := 0, vpip_hands := 0, total_put_in_pot := 0, total_winnings := 0,
    wins := 0, buy_ins := 0, final_stack := 0, cash_outs := 0, admin_adjustments := 0,
    hand_types_won := [], betting_phase_amounts := ⟨0, 0, 0, 0⟩ }

abbrev Stats := Player → PlayerStat

def initStats : Stats := fun _ => initStat

def updStat (s : Stats) (p : Player) (f : PlayerStat → PlayerStat) : Stats :=
  fun q => if q = p then f (s q) else s q

/- Python dict increment `d[k] += 1` on a counting dict: update in
   place when the key is present, append the new key otherwise. -/
def bump : List (String × ℕ) → String → List (String × ℕ)
  | [], k => [(k, 1)]
  | (k', n) :: t, k => if k' = k then (k', n + 1) :: t else (k', n) :: bump t k

def countOf (m : List (String × ℕ)) (k : String) : ℕ :=
  ((m.find? (fun pr => pr.1 = k)).map (·.2)).getD 0

def sumCounts (m : List (String × ℕ)) : ℕ := (m.map (·.2)).sum

/- The final-stack overwrite for one `"name" (stack)` pair. -/
def setFinal (s : Stats) (pr : Player × ℚ) : Stats :=
  updStat s pr.1 (fun r => { r with final_stack := pr.2 })

/- The loop over the pairs of one snapshot line. -/
def finalFold (st : Stats) : List (Player × ℚ) → Stats
  | [] => st
  | pr :: t => finalFold (setFinal st pr) t

/- One entry of the parse_buy_ins_and_stacks loop, with the branches
   tried in source order, each ending the entry when it fires. -/
def ledgerStep (st : Stats) (e : Entry) : Stats :=
  match buyInMatch e with
  | some (p, a) => updStat st p (fun r => { r with buy_ins := qadd r.buy_ins a })
  | none =>
    match stackUpdateMatch e with
    | some (p, fromA, toA) =>
      if qlt fromA toA then
        updStat st p (fun r => { r with admin_adjustments := qadd r.admin_adjustments (qsub toA fromA) })
      else st
    | none =>
      if resetMatch e then st
      else
        match cashOutMatch e with
        | some (p, a) => updStat st p (fun r => { r with cash_outs := qadd r.cash_outs a })
        | none =>
          if containsSub ("Player stacks:".data) e then
            finalFold st (findStackPairs e)
          else st

/- ## Hand-reconstruction pass: parse_hands -/

structure ActionInfo where
  player : Player
  action : Entry
  amount : ℚ
  is_vpip : Bool
  phase : Phase
  deriving DecidableEq

structure Winner where
  player : Player
  amount : ℚ
  hand_type : String
  deriving DecidableEq

structure PhaseLists where
  preflop : List ActionInfo
  flop : List ActionInfo
  turn : List ActionInfo
  river : List ActionInfo
  deriving DecidableEq

def addPhase (pl : PhaseLists) (ph : Phase) (a : ActionInfo) : PhaseLists :=
  match ph with
  | Phase.preflop => { pl with preflop := pl.preflop ++ [a] }
  | Phase.flop => { pl with flop := pl.flop ++ [a] }
  | Phase.turn => { pl with turn := pl.turn ++ [a] }
  | Phase.river => { pl with river := pl.river ++ [a] }

structure Hand where
  hand_number : ℕ
  actions : List ActionInfo
  players_dealt : List Player
  winners : List Winner
  phases : PhaseLists
  deriving DecidableEq

def freshHand (n : ℕ) : Hand :=
  { hand_number := n, actions := [], players_dealt := [], winners := [],
    phases := ⟨[], [], [], []⟩ }

/- re.search of `starting hand #(\d+)`, with int() of the greedy
   digit group. -/
def startAt (u : List Char) : Option ℕ :=
  if ("starting hand #".data).isPrefixOf u then
    let ds := (u.drop 15).takeWhile Char.isDigit
    if ds.isEmpty then none else some (digitsVal ds)
  else none

def startMatch (e : Entry) : Option ℕ := searchPos startAt e

/- Set insertion into the current-hand player list (Python set.add /
   set.update keyed by name). -/
def insertD (l : List Player) (p : Player) : List Player :=
  if p ∈ l then l else l ++ [p]

def mkAction (p : Player) (e : Entry) (ph : Phase) : ActionInfo :=
  { player := p, action := e, amount := extract_amount e,
    is_vpip := is_vpip_action e && decide (ph = Phase.preflop), phase := ph }

def recordAction (h : Hand) (p : Player) (e : Entry) (ph : Phase) : Hand :=
  let a := mkAction p e ph
  let h1 := { h with actions := h.actions ++ [a], phases := addPhase h.phases ph a }
  if containsSub ("collected".data) e && containsSub ("from pot".data) e then
    { h1 with winners := h1.winners ++ [⟨p, extract_amount e, extract_hand_type e⟩] }
  else h1

structure ParseState where
  current : Option Hand
  players : List Player
  phase : Phase
  hands : List Hand
  deriving DecidableEq

def initParse : ParseState := ⟨none, [], Phase.preflop, []⟩

/- One entry of the parse_hands loop.  The branch order mirrors the
   source: the hand-start check, the phase markers (only with an open
   hand), the stack-snapshot check (only with an open hand), then the
   actor branch which falls through into the hand-end check. -/
def handsStep (s : ParseState) (e : Entry) : ParseState :=
  match startMatch e with
  | some n => ⟨some (freshHand n), [], Phase.preflop, s.hands⟩
  | none =>
    if s.current.isSome && containsSub ("Flop:".data) e then { s with phase := Phase.flop }
    else if s.current.isSome && containsSub ("Turn:".data) e then { s with phase := Phase.turn }
    else if s.current.isSome && containsSub ("River:".data) e then { s with phase := Phase.river }
    else if s.current.isSome && containsSub ("Player stacks:".data) e then
      { s with players := (findQuoted e).foldl insertD s.players }
    else
      let s1 : ParseState :=
        match s.current, extract_player_name e with
        | some h, some p => { s with current := some (recordAction h p e s.phase) }
        | _, _ => s
      if containsSub ("ending hand".data) e then
        match s1.current with
        | some h => ⟨none, [], Phase.preflop, s1.hands ++ [{ h with players_dealt := s1.players }]⟩
        | none => ⟨none, [], Phase.preflop, s1.hands⟩
      else s1

def handsFold (s : ParseState) : List Entry → ParseState
  | [] => s
  | e :: l => handsFold (handsStep s e) l

def foldHands (log : List Entry) : ParseState := handsFold initParse log

/- parse_hands: run the loop, then flush a still-open final hand. -/
def parseHands (log : List Entry) : List Hand :=
  let s := foldHands log
  match s.current with
  | some h => s.hands ++ [{ h with players_dealt := s.players }]
  | none => s.hands

/- ## Aggregation: calculate_stats -/

def statsDealt (st : Stats) : List Player → Stats
  | [] => st
  | p :: ps => statsDealt (updStat st p (fun r => { r with hands_dealt := r.hands_dealt + 1 })) ps

/- One action of the per-hand loop: pot contributions (any positive
   amount on a non-collection entry) and the VPIP set. -/
def actionStep (acc : Stats × List Player) (a : ActionInfo) : Stats × List Player :=
  let s1 :=
    if qlt 0 a.amount && !containsSub ("collected".data) a.action then
      updStat acc.1 a.player (fun r =>
        { r with total_put_in_pot := qadd r.total_put_in_pot a.amount,
                 betting_phase_amounts := addBetting r.betting_phase_amounts a.phase a.amount })
    else acc.1
  let vp := if a.is_vpip then insertD acc.2 a.player else acc.2
  (s1, vp)

def actionsFold (acc : Stats × List Player) : List ActionInfo → Stats × List Player
  | [] => acc
  | a :: l => actionsFold (actionStep acc a) l

def statsVpip (st : Stats) : List Player → Stats
  | [] => st
  | p :: vps => statsVpip (updStat st p (fun r => { r with vpip_hands := r.vpip_hands + 1 })) vps

def winnerStep (s : Stats) (w : Winner) : Stats :=
  updStat s w.player (fun r =>
    { r with total_winnings := qadd r.total_winnings w.amount,
             wins := r.wins + 1,
             hand_types_won := bump r.hand_types_won w.hand_type })

def winnersFold (st : Stats) : List Winner → Stats
  | [] => st
  | w :: ws => winnersFold (winnerStep st w) ws

def applyHand (st : Stats) (h : Hand) : Stats :=
  let st1 := statsDealt st h.players_dealt
  let acc := actionsFold (st1, []) h.actions
  let st3 := statsVpip acc.1 acc.2
  winnersFold st3 h.winners

def calcStats (st : Stats) : List Hand → Stats
  | [] => st
  | h :: hs => calcStats (applyHand st h) hs

/- The full pipeline of run_analysis up to the statistics record:
   the session-level pass, the hand pass, then aggregation, all on
   the order-sorted entry list. -/
def ledgerFold (st : Stats) : List Entry → Stats
  | [] => st
  | e :: l => ledgerFold (ledgerStep st e) l

def ledgerPass (log : List Entry) : Stats := ledgerFold initStats log

def analyze (log : List Entry) : Stats := calcStats (ledgerPass log) (parseHands log)

/- ## Report: generate_report -/

/- Rounding to two decimals: round-half-to-even differences of the
   float implementation do not arise for the values considered here;
   ⌊x + 1/2⌋ on the hundredths. -/
def qround (q : ℚ) : ℤ := Int.fdiv (2 * q.num + q.den) (2 * q.den)

def round2 (q : ℚ) : ℚ := Rat.divInt (qround (qmul q 100)) 100

structure ReportEntry where
  hands_dealt : ℕ
  vpip_hands : ℕ
  vpip_percentage : ℚ
  buy_ins : ℚ
  admin_adjustments : ℚ
  final_stack : ℚ
  cash_outs : ℚ
  actual_profit : ℚ
  estimated_profit : ℚ
  total_put_in_pot : ℚ
  total_winnings : ℚ
  wins : ℕ
  deriving DecidableEq

/- The numeric fields of one player record of generate_report (the
   top-2 hand-type and betting-phase presentation fields are not
   modeled; none of the verified properties concern them). -/
def reportFor (st : PlayerStat) : ReportEntry :=
  { hands_dealt := st.hands_dealt,
    vpip_hands := st.vpip_hands,
    vpip_percentage :=
      if st.hands_dealt > 0 then
        round2 (qmul (qdiv (st.vpip_hands : ℚ) (st.hands_dealt : ℚ)) 100)
      else 0,
    buy_ins := round2 st.buy_ins,
    admin_adjustments := round2 st.admin_adjustments,
    final_stack := round2 st.final_stack,
    cash_outs := round2 st.cash_outs,
    actual_profit := round2 (qsub (qsub (qadd st.final_stack st.cash_outs) st.buy_ins) st.admin_adjustments),
    estimated_profit := round2 (qsub st.total_winnings st.total_put_in_pot),
    total_put_in_pot := round2 st.total_put_in_pot,
    total_winnings := round2 st.total_winnings,
    wins := st.wins }

/- ## Specification-side characterizations and concrete inputs -/

/- The stack value for player p carried by one snapshot line: its
   last `"p" (value)` pair. -/
def lastStackOf (p : Player) : List (Player × ℚ) → Option ℚ
  | [] => none
  | pr :: t =>
    match lastStackOf p t with
    | some v => some v
    | none => if pr.1 = p then some pr.2 else none

/- Modelled from the spec sentence about final stacks: the stack
   value of the LAST stack-snapshot line, in ascending sequence order
   over the whole log, that names player p. -/
def specLastFinalStack (p : Player) : List Entry → Option ℚ
  | [] => none
  | e :: rest =>
    match specLastFinalStack p rest with
    | some v => some v
    | none =>
      if containsSub ("Player stacks:".data) e then lastStackOf p (findStackPairs e)
      else none

/- A log is snapshot-clean when none of its stack-snapshot lines also
   matches one of the ledger patterns tried earlier in the loop (the
   wire format of §6 keeps these shapes disjoint). -/
abbrev cleanLog (log : List Entry) : Prop :=
  ∀ e ∈ log, containsSub ("Player stacks:".data) e = true →
    buyInMatch e = none ∧ stackUpdateMatch e = none ∧ resetMatch e = false ∧ cashOutMatch e = none

/- The nine-entry end-to-end scenario of the specification, verbatim. -/
def log1 : List Entry :=
  ["starting hand #1".data,
   "Player stacks: \"A\" (100) | \"B\" (100)".data,
   "\"A\" posts a small blind 1".data,
   "\"B\" posts a big blind 2".data,
   "\"A\" calls 2".data,
   "Flop:".data,
   "\"A\" bets 5".data,
   "\"B\" collected 9 from pot with Two Pair".data,
   "ending hand #1".data]

def statsC1 : Stats := analyze log1

/- A log whose only hand has a voluntary preflop action but no stack
   snapshot, so the actor is dealt into no hand at all. -/
def log2 : List Entry :=
  ["starting hand #1".data,
   "\"A\" calls 2.00".data,
   "ending hand".data]

/- A pot-collection entry that mentions Full House without the `with`
   prefix the extractor requires, while matching the Two Pair rule. -/
def entryC5 : Entry := "\"A\" collected 2.00 from pot with Two Pair, Full House on board".data

def entryC5fh : Entry := "\"A\" collected 2.00 from pot with Full House, Aces full of Kings".data

def entryC5none : Entry := "\"A\" collected 2.00 from pot".data

/- An entry matching a forced pattern and a voluntary pattern. -/
def entryC4 : Entry := "\"B\" calls 2.00 (big blind)".data

/- Concrete state and entries for the step-level properties. -/
def stateC6 : ParseState := ⟨some (freshHand 1), [], Phase.preflop, []⟩

def entryC6 : Entry := "starting hand #2".data

def logC7 : List Entry := ["starting hand #1".data]

/- A two-entry session: one approved buy-in of 100 and a final stack
   snapshot of 150. -/
def logC8 : List Entry :=
  ["approved the player \"A\" participation with a stack of 100".data,
   "Player stacks: #1 \"A\" (150)".data]

/- Concrete snapshot entry and states for the routing property. -/
def entryC3 : Entry := "Player stacks: #1 \"A\" (150) | #2 \"B\" (75.50)".data

def stateC3open : ParseState := ⟨some (freshHand 3), ["C".data], Phase.flop, []⟩

def stateC3closed : ParseState := ⟨none, [], Phase.preflop, []⟩

/- The canonical label set of extract_hand_type. -/
def handTypeLabels : List String :=
  ["Straight Flush", "Four of a Kind", "Full House", "Flush", "Straight",
   "Three of a Kind", "Two Pair", "One Pair", "High Card", "Other", "Didn\x27t Show"]

/- ## The reducible rational operations are the field operations -/

theorem qadd_eq (a b : ℚ) : qadd a b = a + b := by
  rw [qadd, Rat.divInt_eq_div]
  push_cast
  conv_rhs => rw [← Rat.num_div_den a, ← Rat.num_div_den b]
  rw [div_add_div _ _ (Nat.cast_ne_zero.mpr a.den_nz) (Nat.cast_ne_zero.mpr b.den_nz)]
  ring_nf

theorem qsub_eq (a b : ℚ) : qsub a b = a - b := by
  rw [qsub, Rat.divInt_eq_div]
  push_cast
  conv_rhs => rw [← Rat.num_div_den a, ← Rat.num_div_den b]
  rw [div_sub_div _ _ (Nat.cast_ne_zero.mpr a.den_nz) (Nat.cast_ne_zero.mpr b.den_nz)]
  ring_nf

theorem qmul_eq (a b : ℚ) : qmul a b = a * b := by
  rw [qmul, Rat.divInt_eq_div]
  push_cast
  conv_rhs => rw [← Rat.num_div_den a, ← Rat.num_div_den b]
  rw [div_mul_div_comm]

theorem qlt_iff (a b : ℚ) : qlt a b = true ↔ a < b := by
  have h1 : (0 : ℚ) < a.den := by exact_mod_cast a.pos
  have h2 : (0 : ℚ) < b.den := by exact_mod_cast b.pos
  rw [qlt, decide_eq_true_iff]
  rw [show (a < b) ↔ ((a.num : ℚ) / a.den < (b.num : ℚ) / b.den) by
        rw [Rat.num_div_den, Rat.num_div_den]]
  rw [div_lt_div_iff₀ h1 h2]
  constructor <;> intro h <;> exact_mod_cast h

/- ## Searching lemmas -/

theorem searchPos_lit (lit : List Char) {α : Type} (g : α) (t : List Char) :
    searchPos (fun u => if lit.isPrefixOf u then some g else none) t =
      if containsSub lit t then some g else none := by
  induction t with
  | nil =>
    cases lit <;> simp [searchPos, containsSub, List.isPrefixOf]
  | cons c t ih =>
    have hs : searchPos (fun u => if lit.isPrefixOf u then some g else none) (c :: t) =
        match (if lit.isPrefixOf (c :: t) then some g else none : Option α) with
        | some r => some r
        | none => searchPos (fun u => if lit.isPrefixOf u then some g else none) t := rfl
    have hc : containsSub lit (c :: t) = (lit.isPrefixOf (c :: t) || containsSub lit t) := rfl
    rw [hs, hc]
    by_cases h : lit.isPrefixOf (c :: t) = true
    · rw [h]
      simp
    · rw [Bool.not_eq_true] at h
      rw [h]
      simpa using ih

theorem litMatcher_eq (lit grp t : List Char) :
    litMatcher lit grp t = if containsSub lit t then some grp else none :=
  searchPos_lit lit grp t

/- ## Set-list helpers -/

theorem mem_insertD (l : List Player) (q p : Player) :
    p ∈ insertD l q ↔ p ∈ l ∨ p = q := by
  by_cases h : q ∈ l
  · simp only [insertD, if_pos h]
    constructor
    · exact Or.inl
    · rintro (hp | rfl) <;> assumption
  · simp [insertD, if_neg h]

theorem nodup_insertD (l : List Player) (q : Player) (hl : l.Nodup) :
    (insertD l q).Nodup := by
  by_cases h : q ∈ l
  · simpa [insertD, if_pos h] using hl
  · simp only [insertD, if_neg h]
    simpa [List.nodup_append] using ⟨hl, fun hq => h hq⟩

theorem mem_foldl_insertD (xs : List Player) (acc : List Player) (p : Player) :
    p ∈ xs.foldl insertD acc ↔ p ∈ acc ∨ p ∈ xs := by
  induction xs generalizing acc with
  | nil => simp
  | cons x xs ih =>
    rw [List.foldl_cons, ih, mem_insertD]
    constructor
    · rintro ((hp | rfl) | hp)
      · exact Or.inl hp
      · exact Or.inr (List.mem_cons_self _ _)
      · exact Or.inr (List.mem_cons_of_mem _ hp)
    · rintro (hp | hp)
      · exact Or.inl (Or.inl hp)
      · rcases List.mem_cons.mp hp with rfl | hp
        · exact Or.inl (Or.inr rfl)
        · exact Or.inr hp

/- ## The final-stack fold of one snapshot line -/

theorem finalFold_apply (pairs : List (Player × ℚ)) (p : Player) :
    ∀ st : Stats, (finalFold st pairs) p =
      { st p with final_stack := (lastStackOf p pairs).getD ((st p).final_stack) } := by
  induction pairs with
  | nil => intro st; rfl
  | cons pr t ih =>
    obtain ⟨q, v⟩ := pr
    intro st
    have hstep : finalFold st ((q, v) :: t) = finalFold (setFinal st (q, v)) t := rfl
    rw [hstep, ih (setFinal st (q, v))]
    have hsf : setFinal st (q, v) p =
        if p = q then { st p with final_stack := v } else st p := rfl
    have hlast : lastStackOf p ((q, v) :: t) =
        (match lastStackOf p t with
         | some w => some w
         | none => if q = p then some v else none) := rfl
    rw [hsf, hlast]
    by_cases hp : p = q
    · subst hp
      cases hl : lastStackOf p t <;> simp [hl]
    · have hp2 : ¬ q = p := fun hh => hp hh.symm
      cases hl : lastStackOf p t <;> simp [hl, hp, hp2]

/- ## The session pass never touches the hand-derived counters -/

theorem ledgerStep_counts (st : Stats) (e : Entry) (p : Player) :
    ((ledgerStep st e) p).hands_dealt = (st p).hands_dealt ∧
    ((ledgerStep st e) p).vpip_hands = (st p).vpip_hands ∧
    ((ledgerStep st e) p).wins = (st p).wins ∧
    ((ledgerStep st e) p).hand_types_won = (st p).hand_types_won := by
  unfold ledgerStep
  cases hb : buyInMatch e with
  | some pr =>
    obtain ⟨q, a⟩ := pr
    by_cases hp : p = q <;> simp [updStat, hp]
  | none =>
    cases hu : stackUpdateMatch e with
    | some pr =>
      obtain ⟨q, fa, ta⟩ := pr
      by_cases hlt : qlt fa ta = true
      · by_cases hp : p = q <;> simp [hlt, updStat, hp]
      · simp [hlt]
    | none =>
      by_cases hr : resetMatch e = true
      · simp [hr]
      · cases hc : cashOutMatch e with
        | some pr =>
          obtain ⟨q, a⟩ := pr
          by_cases hp : p = q <;> simp [hr, updStat, hp]
        | none =>
          by_cases hs : containsSub ("Player stacks:".data) e = true
          · simp [hr, hs, finalFold_apply]
          · simp [hr, hs]

theorem ledgerFold_counts (log : List Entry) (p : Player) :
    ∀ st : Stats,
      ((ledgerFold st log) p).hands_dealt = (st p).hands_dealt ∧
      ((ledgerFold st log) p).vpip_hands = (st p).vpip_hands ∧
      ((ledgerFold st log) p).wins = (st p).wins ∧
      ((ledgerFold st log) p).hand_types_won = (st p).hand_types_won := by
  induction log with
  | nil => intro st; exact ⟨rfl, rfl, rfl, rfl⟩
  | cons e l ih =>
    intro st
    have hstep : ledgerFold st (e :: l) = ledgerFold (ledgerStep st e) l := rfl
    rw [hstep]
    obtain ⟨h1, h2, h3, h4⟩ := ih (ledgerStep st e)
    obtain ⟨g1, g2, g3, g4⟩ := ledgerStep_counts st e p
    exact ⟨h1.trans g1, h2.trans g2, h3.trans g3, h4.trans g4⟩

/- ## The final-stack value computed by the session pass -/

theorem ledgerStep_final_not_snapshot (st : Stats) (e : Entry) (p : Player)
    (hs : containsSub ("Player stacks:".data) e = false) :
    ((ledgerStep st e) p).final_stack = (st p).final_stack := by
  unfold ledgerStep
  cases hb : buyInMatch e with
  | some pr =>
    obtain ⟨q, a⟩ := pr
    by_cases hp : p = q <;> simp [updStat, hp]
  | none =>
    cases hu : stackUpdateMatch e with
    | some pr =>
      obtain ⟨q, fa, ta⟩ := pr
      by_cases hlt : qlt fa ta = true
      · by_cases hp : p = q <;> simp [hlt, updStat, hp]
      · simp [hlt]
    | none =>
      by_cases hr : resetMatch e = true
      · simp [hr]
      · cases hc : cashOutMatch e with
        | some pr =>
          obtain ⟨q, a⟩ := pr
          by_cases hp : p = q <;> simp [hr, updStat, hp]
        | none => simp [hr, hs]

theorem ledgerStep_final_snapshot (st : Stats) (e : Entry) (p : Player)
    (hs : containsSub ("Player stacks:".data) e = true)
    (h1 : buyInMatch e = none) (h2 : stackUpdateMatch e = none)
    (h3 : resetMatch e = false) (h4 : cashOutMatch e = none) :
    ((ledgerStep st e) p).final_stack =
      (lastStackOf p (findStackPairs e)).getD ((st p).final_stack) := by
  unfold ledgerStep
  rw [h1, h2, h3, h4]
  simp [hs, finalFold_apply]

theorem ledgerFold_final (log : List Entry) (p : Player) :
    ∀ st : Stats, cleanLog log →
      ((ledgerFold st log) p).final_stack =
        (specLastFinalStack p log).getD ((st p).final_stack) := by
  induction log with
  | nil => intro st _; rfl
  | cons e l ih =>
    intro st hcl
    have hstep : ledgerFold st (e :: l) = ledgerFold (ledgerStep st e) l := rfl
    have hcll : cleanLog l := fun e2 he2 => hcl e2 (List.mem_cons_of_mem _ he2)
    rw [hstep, ih (ledgerStep st e) hcll]
    have hspec : specLastFinalStack p (e :: l) =
        (match specLastFinalStack p l with
         | some v => some v
         | none =>
           if containsSub ("Player stacks:".data) e then lastStackOf p (findStackPairs e)
           else none) := rfl
    rw [hspec]
    cases hsl : specLastFinalStack p l with
    | some v => simp
    | none =>
      by_cases hs : containsSub ("Player stacks:".data) e = true
      · obtain ⟨g1, g2, g3, g4⟩ := hcl e (List.mem_cons_self e l) hs
        rw [ledgerStep_final_snapshot st e p hs g1 g2 g3 g4]
        simp [hs]
      · rw [Bool.not_eq_true] at hs
        rw [ledgerStep_final_not_snapshot st e p hs]
        simp [hs]

/- ## Step shapes of the hand pass -/

theorem handsStep_snapshot_open (s : ParseState) (e : Entry) (h : Hand)
    (hcur : s.current = some h)
    (hs : containsSub ("Player stacks:".data) e = true)
    (hst : startMatch e = none)
    (hf : containsSub ("Flop:".data) e = false)
    (ht : containsSub ("Turn:".data) e = false)
    (hr : containsSub ("River:".data) e = false) :
    handsStep s e = { s with players := (findQuoted e).foldl insertD s.players } := by
  unfold handsStep
  rw [hst]
  have hsome : s.current.isSome = true := by rw [hcur]; rfl
  simp [hsome, hf, ht, hr, hs]

theorem handsStep_no_hand (s : ParseState) (e : Entry)
    (hcur : s.current = none)
    (hst : startMatch e = none)
    (hend : containsSub ("ending hand".data) e = false) :
    handsStep s e = s := by
  unfold handsStep
  rw [hst]
  have hsome : s.current.isSome = false := by rw [hcur]; rfl
  simp [hsome, hend, hcur]

/- ## Aggregator preservation lemmas -/

theorem statsDealt_other (ps : List Player) (p : Player) :
    ∀ st : Stats,
      ((statsDealt st ps) p).vpip_hands = (st p).vpip_hands ∧
      ((statsDealt st ps) p).wins = (st p).wins ∧
      ((statsDealt st ps) p).hand_types_won = (st p).hand_types_won := by
  induction ps with
  | nil => intro st; exact ⟨rfl, rfl, rfl⟩
  | cons x t ih =>
    intro st
    have hstep : statsDealt st (x :: t) =
        statsDealt (updStat st x (fun r => { r with hands_dealt := r.hands_dealt + 1 })) t := rfl
    rw [hstep]
    obtain ⟨h1, h2, h3⟩ := ih (updStat st x (fun r => { r with hands_dealt := r.hands_dealt + 1 }))
    refine ⟨h1.trans ?_, h2.trans ?_, h3.trans ?_⟩ <;>
      by_cases hp : p = x <;> simp [updStat, hp]

theorem statsDealt_mono (ps : List Player) (p : Player) :
    ∀ st : Stats, (st p).hands_dealt ≤ ((statsDealt st ps) p).hands_dealt := by
  induction ps with
  | nil => intro st; exact le_refl _
  | cons x t ih =>
    intro st
    have hstep : statsDealt st (x :: t) =
        statsDealt (updStat st x (fun r => { r with hands_dealt := r.hands_dealt + 1 })) t := rfl
    rw [hstep]
    refine le_trans ?_ (ih _)
    by_cases hp : p = x <;> simp [updStat, hp]

theorem statsDealt_mem (ps : List Player) (p : Player) (hp : p ∈ ps) :
    ∀ st : Stats, (st p).hands_dealt + 1 ≤ ((statsDealt st ps) p).hands_dealt := by
  induction ps with
  | nil => cases hp
  | cons x t ih =>
    intro st
    have hstep : statsDealt st (x :: t) =
        statsDealt (updStat st x (fun r => { r with hands_dealt := r.hands_dealt + 1 })) t := rfl
    rw [hstep]
    rcases List.mem_cons.mp hp with rfl | hmem
    · refine le_trans ?_ (statsDealt_mono t p _)
      simp [updStat]
    · refine le_trans ?_ (ih hmem _)
      have hle : (st p).hands_dealt ≤
          ((updStat st x (fun r => { r with hands_dealt := r.hands_dealt + 1 })) p).hands_dealt := by
        by_cases hpx : p = x <;> simp [updStat, hpx]
      omega

theorem actionStep_counts (acc : Stats × List Player) (a : ActionInfo) (p : Player) :
    ((actionStep acc a).1 p).hands_dealt = (acc.1 p).hands_dealt ∧
    ((actionStep acc a).1 p).vpip_hands = (acc.1 p).vpip_hands ∧
    ((actionStep acc a).1 p).wins = (acc.1 p).wins ∧
    ((actionStep acc a).1 p).hand_types_won = (acc.1 p).hand_types_won := by
  unfold actionStep
  by_cases hc : (qlt 0 a.amount && !containsSub ("collected".data) a.action) = true
  · by_cases hp : p = a.player <;> simp [hc, updStat, hp]
  · simp [hc]

theorem actionsFold_counts (l : List ActionInfo) (p : Player) :
    ∀ acc : Stats × List Player,
      ((actionsFold acc l).1 p).hands_dealt = (acc.1 p).hands_dealt ∧
      ((actionsFold acc l).1 p).vpip_hands = (acc.1 p).vpip_hands ∧
      ((actionsFold acc l).1 p).wins = (acc.1 p).wins ∧
      ((actionsFold acc l).1 p).hand_types_won = (acc.1 p).hand_types_won := by
  induction l with
  | nil => intro acc; exact ⟨rfl, rfl, rfl, rfl⟩
  | cons a t ih =>
    intro acc
    have hstep : actionsFold acc (a :: t) = actionsFold (actionStep acc a) t := rfl
    rw [hstep]
    obtain ⟨h1, h2, h3, h4⟩ := ih (actionStep acc a)
    obtain ⟨g1, g2, g3, g4⟩ := actionStep_counts acc a p
    exact ⟨h1.trans g1, h2.trans g2, h3.trans g3, h4.trans g4⟩

theorem actionsFold_vpset (l : List ActionInfo) (q : Player) :
    ∀ acc : Stats × List Player, q ∈ (actionsFold acc l).2 →
      q ∈ acc.2 ∨ ∃ a ∈ l, a.is_vpip = true ∧ a.player = q := by
  induction l with
  | nil => intro acc hq; exact Or.inl hq
  | cons a t ih =>
    intro acc hq
    have hstep : actionsFold acc (a :: t) = actionsFold (actionStep acc a) t := rfl
    rw [hstep] at hq
    rcases ih (actionStep acc a) hq with hacc | ⟨b, hb, hv, hp⟩
    · by_cases hvp : a.is_vpip = true
      · have hmem : q ∈ insertD acc.2 a.player := by simpa [actionStep, hvp] using hacc
        rcases (mem_insertD acc.2 a.player q).mp hmem with h2 | rfl
        · exact Or.inl h2
        · exact Or.inr ⟨a, List.mem_cons_self a t, hvp, rfl⟩
      · have hmem : q ∈ acc.2 := by simpa [actionStep, hvp] using hacc
        exact Or.inl hmem
    · exact Or.inr ⟨b, List.mem_cons_of_mem _ hb, hv, hp⟩

theorem actionsFold_nodup (l : List ActionInfo) :
    ∀ acc : Stats × List Player, acc.2.Nodup → (actionsFold acc l).2.Nodup := by
  induction l with
  | nil => intro acc h; exact h
  | cons a t ih =>
    intro acc h
    have hstep : actionsFold acc (a :: t) = actionsFold (actionStep acc a) t := rfl
    rw [hstep]
    refine ih (actionStep acc a) ?_
    by_cases hvp : a.is_vpip = true
    · simpa [actionStep, hvp] using nodup_insertD acc.2 a.player h
    · simpa [actionStep, hvp] using h

theorem statsVpip_other (vps : List Player) (p : Player) :
    ∀ st : Stats,
      ((statsVpip st vps) p).hands_dealt = (st p).hands_dealt ∧
      ((statsVpip st vps) p).wins = (st p).wins ∧
      ((statsVpip st vps) p).hand_types_won = (st p).hand_types_won := by
  induction vps with
  | nil => intro st; exact ⟨rfl, rfl, rfl⟩
  | cons x t ih =>
    intro st
    have hstep : statsVpip st (x :: t) =
        statsVpip (updStat st x (fun r => { r with vpip_hands := r.vpip_hands + 1 })) t := rfl
    rw [hstep]
    obtain ⟨h1, h2, h3⟩ := ih (updStat st x (fun r => { r with vpip_hands := r.vpip_hands + 1 }))
    refine ⟨h1.trans ?_, h2.trans ?_, h3.trans ?_⟩ <;>
      by_cases hp : p = x <;> simp [updStat, hp]

theorem statsVpip_not_mem (vps : List Player) (p : Player) (hp : p ∉ vps) :
    ∀ st : Stats, ((statsVpip st vps) p).vpip_hands = (st p).vpip_hands := by
  induction vps with
  | nil => intro st; rfl
  | cons x t ih =>
    intro st
    have hstep : statsVpip st (x :: t) =
        statsVpip (updStat st x (fun r => { r with vpip_hands := r.vpip_hands + 1 })) t := rfl
    rw [hstep]
    have hpx : p ≠ x := fun hh => hp (hh ▸ List.mem_cons_self x t)
    have hpt : p ∉ t := fun hh => hp (List.mem_cons_of_mem _ hh)
    rw [ih hpt]
    simp [updStat, hpx]

theorem statsVpip_count (vps : List Player) (p : Player) (hnd : vps.Nodup) :
    ∀ st : Stats, ((statsVpip st vps) p).vpip_hands =
      (st p).vpip_hands + (if p ∈ vps then 1 else 0) := by
  induction vps with
  | nil => intro st; simp [statsVpip]
  | cons x t ih =>
    intro st
    have hstep : statsVpip st (x :: t) =
        statsVpip (updStat st x (fun r => { r with vpip_hands := r.vpip_hands + 1 })) t := rfl
    rw [hstep]
    obtain ⟨hx, ht⟩ := List.nodup_cons.mp hnd
    by_cases hp : p = x
    · subst hp
      rw [statsVpip_not_mem t p hx]
      simp [updStat]
    · rw [ih ht]
      have hupd : ((updStat st x (fun r => { r with vpip_hands := r.vpip_hands + 1 })) p).vpip_hands =
          (st p).vpip_hands := by simp [updStat, hp]
      rw [hupd]
      simp [List.mem_cons, hp]

theorem winnerStep_other (s : Stats) (w : Winner) (p : Player) :
    ((winnerStep s w) p).hands_dealt = (s p).hands_dealt ∧
    ((winnerStep s w) p).vpip_hands = (s p).vpip_hands := by
  by_cases hp : p = w.player <;> simp [winnerStep, updStat, hp]

theorem winnersFold_other (ws : List Winner) (p : Player) :
    ∀ st : Stats,
      ((winnersFold st ws) p).hands_dealt = (st p).hands_dealt ∧
      ((winnersFold st ws) p).vpip_hands = (st p).vpip_hands := by
  induction ws with
  | nil => intro st; exact ⟨rfl, rfl⟩
  | cons w t ih =>
    intro st
    have hstep : winnersFold st (w :: t) = winnersFold (winnerStep st w) t := rfl
    rw [hstep]
    obtain ⟨h1, h2⟩ := ih (winnerStep st w)
    obtain ⟨g1, g2⟩ := winnerStep_other st w p
    exact ⟨h1.trans g1, h2.trans g2⟩

theorem sumCounts_bump (m : List (String × ℕ)) (k : String) :
    sumCounts (bump m k) = sumCounts m + 1 := by
  induction m with
  | nil => rfl
  | cons pr t ih =>
    obtain ⟨k', n⟩ := pr
    by_cases hk : k' = k
    · simp [bump, hk, sumCounts]
      omega
    · simp only [bump, if_neg hk]
      simp [sumCounts] at ih ⊢
      omega

theorem winnersFold_inv (ws : List Winner) (p : Player) :
    ∀ st : Stats, (st p).wins = sumCounts (st p).hand_types_won →
      ((winnersFold st ws) p).wins = sumCounts ((winnersFold st ws) p).hand_types_won := by
  induction ws with
  | nil => intro st h; exact h
  | cons w t ih =>
    intro st h
    have hstep : winnersFold st (w :: t) = winnersFold (winnerStep st w) t := rfl
    rw [hstep]
    refine ih (winnerStep st w) ?_
    by_cases hp : p = w.player
    · simp [winnerStep, updStat, hp, sumCounts_bump]
      rw [← hp]
      exact h
    · simpa [winnerStep, updStat, hp] using h

/- ## Per-hand and whole-run aggregation facts -/

theorem applyHand_vpip_le (h : Hand) (st : Stats) (p : Player)
    (hact : ∀ a ∈ h.actions, a.is_vpip = true → a.player ∈ h.players_dealt)
    (hle : (st p).vpip_hands ≤ (st p).hands_dealt) :
    ((applyHand st h) p).vpip_hands ≤ ((applyHand st h) p).hands_dealt := by
  have hgoal : applyHand st h =
      winnersFold (statsVpip (actionsFold (statsDealt st h.players_dealt, []) h.actions).1
        (actionsFold (statsDealt st h.players_dealt, []) h.actions).2) h.winners := rfl
  rw [hgoal]
  obtain ⟨wd, wv⟩ := winnersFold_other h.winners p
    (statsVpip (actionsFold (statsDealt st h.players_dealt, []) h.actions).1
      (actionsFold (statsDealt st h.players_dealt, []) h.actions).2)
  rw [wd, wv]
  obtain ⟨sd, _, _⟩ := statsVpip_other
    (actionsFold (statsDealt st h.players_dealt, []) h.actions).2 p
    (actionsFold (statsDealt st h.players_dealt, []) h.actions).1
  rw [sd]
  have hnodup : (actionsFold (statsDealt st h.players_dealt, []) h.actions).2.Nodup :=
    actionsFold_nodup h.actions (statsDealt st h.players_dealt, []) (by simp)
  rw [statsVpip_count (actionsFold (statsDealt st h.players_dealt, []) h.actions).2 p hnodup]
  obtain ⟨ad, av, _, _⟩ := actionsFold_counts h.actions p (statsDealt st h.players_dealt, [])
  rw [ad, av]
  obtain ⟨dv, _, _⟩ := statsDealt_other h.players_dealt p st
  rw [dv]
  by_cases hmem : p ∈ (actionsFold (statsDealt st h.players_dealt, []) h.actions).2
  · rcases actionsFold_vpset h.actions p (statsDealt st h.players_dealt, []) hmem with
      habs | ⟨a, ha, hav, hap⟩
    · simp at habs
    · have hpd : p ∈ h.players_dealt := hap ▸ hact a ha hav
      have hmem1 := statsDealt_mem h.players_dealt p hpd st
      simp only [if_pos hmem]
      omega
  · have hmono := statsDealt_mono h.players_dealt p st
    simp only [if_neg hmem]
    omega

theorem calcStats_vpip_le (hands : List Hand) (p : Player) :
    ∀ st : Stats,
      (∀ h ∈ hands, ∀ a ∈ h.actions, a.is_vpip = true → a.player ∈ h.players_dealt) →
      (st p).vpip_hands ≤ (st p).hands_dealt →
      ((calcStats st hands) p).vpip_hands ≤ ((calcStats st hands) p).hands_dealt := by
  induction hands with
  | nil => intro st _ hle; exact hle
  | cons h t ih =>
    intro st hact hle
    have hstep : calcStats st (h :: t) = calcStats (applyHand st h) t := rfl
    rw [hstep]
    exact ih (applyHand st h)
      (fun h2 hh2 => hact h2 (List.mem_cons_of_mem _ hh2))
      (applyHand_vpip_le h st p (hact h (List.mem_cons_self _ _)) hle)

theorem applyHand_inv (h : Hand) (st : Stats) (p : Player)
    (hinv : (st p).wins = sumCounts (st p).hand_types_won) :
    ((applyHand st h) p).wins = sumCounts ((applyHand st h) p).hand_types_won := by
  have hgoal : applyHand st h =
      winnersFold (statsVpip (actionsFold (statsDealt st h.players_dealt, []) h.actions).1
        (actionsFold (statsDealt st h.players_dealt, []) h.actions).2) h.winners := rfl
  rw [hgoal]
  refine winnersFold_inv h.winners p _ ?_
  obtain ⟨_, sw, sh⟩ := statsVpip_other
    (actionsFold (statsDealt st h.players_dealt, []) h.actions).2 p
    (actionsFold (statsDealt st h.players_dealt, []) h.actions).1
  rw [sw, sh]
  obtain ⟨_, _, aw, ah⟩ := actionsFold_counts h.actions p (statsDealt st h.players_dealt, [])
  rw [aw, ah]
  obtain ⟨_, dw, dh⟩ := statsDealt_other h.players_dealt p st
  rw [dw, dh]
  exact hinv

theorem calcStats_inv (hands : List Hand) (p : Player) :
    ∀ st : Stats, (st p).wins = sumCounts (st p).hand_types_won →
      ((calcStats st hands) p).wins = sumCounts ((calcStats st hands) p).hand_types_won := by
  induction hands with
  | nil => intro st h; exact h
  | cons h t ih =>
    intro st hinv
    have hstep : calcStats st (h :: t) = calcStats (applyHand st h) t := rfl
    rw [hstep]
    exact ih (applyHand st h) (applyHand_inv h st p hinv)

/- ## The claims -/

/-- C1: the end-to-end scenario of the specification, as stated, is
false on the code: with the integer amounts of the scenario the
amount regex `\d+\.\d+` never matches, so "calls 2" is not a VPIP
action and no money is attributed, giving vpip_hands["A"] = 0 and
zero totals rather than the claimed 1, 7 and 2. -/
theorem claim1_counterexample :
    ¬ ((statsC1 "A".data).hands_dealt = 1 ∧ (statsC1 "B".data).hands_dealt = 1 ∧
       (statsC1 "A".data).vpip_hands = 1 ∧ (statsC1 "B".data).vpip_hands = 0 ∧
       (statsC1 "B".data).wins = 1 ∧
       countOf (statsC1 "B".data).hand_types_won "Two Pair" = 1 ∧
       (statsC1 "A".data).total_put_in_pot = 7 ∧
       (statsC1 "B".data).total_put_in_pot = 2) := by
  intro hcl
  exact absurd hcl.2.2.1 (by decide)

/-- C1 (amended): on the nine-entry scenario log the aggregated
statistics are hands_dealt["A"] = hands_dealt["B"] = 1,
vpip_hands["A"] = vpip_hands["B"] = 0, B.wins = 1,
B.hand_types_won["Two Pair"] = 1, and both total_put_in_pot values
are 0 (the integer amounts carry no decimal point, so extract_amount
returns 0 and is_vpip_action rejects "calls 2"). -/
theorem claim1_theorem :
    (statsC1 "A".data).hands_dealt = 1 ∧ (statsC1 "B".data).hands_dealt = 1 ∧
    (statsC1 "A".data).vpip_hands = 0 ∧ (statsC1 "B".data).vpip_hands = 0 ∧
    (statsC1 "B".data).wins = 1 ∧
    countOf (statsC1 "B".data).hand_types_won "Two Pair" = 1 ∧
    (statsC1 "A".data).total_put_in_pot = 0 ∧
    (statsC1 "B".data).total_put_in_pot = 0 := by
  refine ⟨by decide, by decide, by decide, by decide, by decide, by decide, by decide, by decide⟩

/-- C2: the invariant vpip_hands ≤ hands_dealt fails as stated: in a
hand with a voluntary preflop action but no stack-snapshot line, the
actor gets vpip_hands = 1 while hands_dealt stays 0. -/
theorem claim2_counterexample :
    ¬ (((analyze log2) "A".data).vpip_hands ≤ ((analyze log2) "A".data).hands_dealt) := by
  decide

/-- C2 (amended): for every log in which, in every finalized hand,
the player of every VPIP-flagged action appears in that hand's
players_dealt, every player's vpip_hands is at most hands_dealt
after aggregation. -/
theorem claim2_theorem (log : List Entry)
    (hact : ∀ h ∈ parseHands log, ∀ a ∈ h.actions, a.is_vpip = true → a.player ∈ h.players_dealt)
    (p : Player) :
    ((analyze log) p).vpip_hands ≤ ((analyze log) p).hands_dealt := by
  have hcounts := ledgerFold_counts log p initStats
  have hz : ((ledgerPass log) p).vpip_hands = 0 := hcounts.2.1
  unfold analyze
  refine calcStats_vpip_le (parseHands log) p (ledgerPass log) hact ?_
  rw [hz]
  exact Nat.zero_le _

/-- C2 witness: the scenario log satisfies the dealt-coverage
hypothesis, and the conclusion holds for player A. -/
theorem claim2_witness :
    ((analyze log1) "A".data).vpip_hands ≤ ((analyze log1) "A".data).hands_dealt :=
  claim2_theorem log1 (by decide) ("A".data)

/-- C3: snapshot routing.  (i) With an open hand, a stack-snapshot
line only unions the quoted names into the open hand's player set,
leaving the current hand, the phase and the emitted hand list
untouched.  (ii) In the session pass a snapshot line (matching no
earlier ledger pattern) overwrites final_stack with the last pair
value for each named player, and with no open hand the hand pass
ignores the entry entirely.  (iii) Over a whole snapshot-clean log,
final_stack is the value of the last snapshot line naming the
player, in ascending sequence order, with default 0. -/
theorem claim3_theorem :
    (∀ (s : ParseState) (e : Entry) (h : Hand),
        s.current = some h →
        containsSub ("Player stacks:".data) e = true →
        startMatch e = none →
        containsSub ("Flop:".data) e = false →
        containsSub ("Turn:".data) e = false →
        containsSub ("River:".data) e = false →
        (handsStep s e).current = s.current ∧ (handsStep s e).hands = s.hands ∧
          (handsStep s e).phase = s.phase ∧
          ∀ n, n ∈ (handsStep s e).players ↔ n ∈ s.players ∨ n ∈ findQuoted e) ∧
    (∀ (st : Stats) (e : Entry),
        containsSub ("Player stacks:".data) e = true →
        buyInMatch e = none → stackUpdateMatch e = none →
        resetMatch e = false → cashOutMatch e = none →
        ∀ p, ((ledgerStep st e) p).final_stack =
          (lastStackOf p (findStackPairs e)).getD ((st p).final_stack)) ∧
    (∀ (s : ParseState) (e : Entry),
        s.current = none → startMatch e = none →
        containsSub ("ending hand".data) e = false →
        handsStep s e = s) ∧
    (∀ (log : List Entry), cleanLog log →
        ∀ p, ((ledgerPass log) p).final_stack =
          (specLastFinalStack p log).getD 0) := by
  refine ⟨?_, ?_, ?_, ?_⟩
  · intro s e h hcur hs hst hf ht hr
    rw [handsStep_snapshot_open s e h hcur hs hst hf ht hr]
    exact ⟨rfl, rfl, rfl, fun n => mem_foldl_insertD (findQuoted e) s.players n⟩
  · intro st e hs h1 h2 h3 h4 p
    exact ledgerStep_final_snapshot st e p hs h1 h2 h3 h4
  · intro s e hcur hst hend
    exact handsStep_no_hand s e hcur hst hend
  · intro log hcl p
    exact ledgerFold_final log p initStats hcl

/-- C3 witness: concrete instantiations of the three step-level parts
and of the last-snapshot-wins law on a one-line log. -/
theorem claim3_witness :
    ((handsStep stateC3open entryC3).current = stateC3open.current ∧
      (handsStep stateC3open entryC3).hands = stateC3open.hands ∧
      (handsStep stateC3open entryC3).phase = stateC3open.phase ∧
      ("B".data ∈ (handsStep stateC3open entryC3).players ↔
        "B".data ∈ stateC3open.players ∨ "B".data ∈ findQuoted entryC3)) ∧
    ((ledgerStep initStats entryC3) "B".data).final_stack =
      (lastStackOf ("B".data) (findStackPairs entryC3)).getD
        ((initStats ("B".data)).final_stack) ∧
    handsStep stateC3closed entryC3 = stateC3closed ∧
    ((ledgerPass [entryC3]) "A".data).final_stack =
      (specLastFinalStack ("A".data) [entryC3]).getD 0 := by
  have h1 := claim3_theorem.1 stateC3open entryC3 (freshHand 3) rfl (by decide) (by decide)
    (by decide) (by decide) (by decide)
  refine ⟨⟨h1.1, h1.2.1, h1.2.2.1, h1.2.2.2 ("B".data)⟩, ?_, ?_, ?_⟩
  · exact claim3_theorem.2.1 initStats entryC3 (by decide) (by decide) (by decide)
      (by decide) (by decide) ("B".data)
  · exact claim3_theorem.2.2.1 stateC3closed entryC3 rfl (by decide) (by decide)
  · exact claim3_theorem.2.2.2 [entryC3] (by decide) ("A".data)

/-- C4: forced-pattern precedence: an entry matching any of the five
forced patterns (case-insensitively) is never classified as a VPIP
action, whatever else it matches. -/
theorem claim4_theorem (e : Entry) (pat : List Char)
    (hmem : pat ∈ forcedPats) (hc : containsSub pat (lcs e) = true) :
    is_vpip_action e = false := by
  have hf : isForcedEntry e = true := by
    unfold isForcedEntry
    exact List.any_eq_true.mpr ⟨pat, hmem, hc⟩
  simp [is_vpip_action, hf]

/-- C4 witness: "calls 2.00 (big blind)" matches the forced pattern
"(big blind)" and the voluntary pattern "calls 2.00", and is
classified as not VPIP. -/
theorem claim4_witness :
    is_vpip_action entryC4 = false ∧ isVolEntry entryC4 = true :=
  ⟨claim4_theorem entryC4 ("(big blind)".data) (by decide) (by decide), by decide⟩

/-- C5: as stated the claim is false: this pot-collection entry
contains "Full House", yet the extractor requires the text
"with full house", finds "with two pair" first, and classifies the
entry as the lower-ranked "Two Pair". -/
theorem claim5_counterexample :
    containsSub ("collected".data) entryC5 = true ∧
    containsSub ("from pot".data) entryC5 = true ∧
    containsSub ("Full House".data) entryC5 = true ∧
    extract_hand_type entryC5 = "Two Pair" ∧
    ("Two Pair" : String) ≠ "Full House" := by
  refine ⟨by decide, by decide, by decide, by decide, by decide⟩

/-- C5 (amended): every entry containing "with full house"
case-insensitively and containing neither "with straight flush" nor
"with four of a kind" is classified "Full House"; and every entry on
which none of the ten patterns matches is classified "Didn't Show". -/
theorem claim5_theorem :
    (∀ e : Entry,
        containsSub ("with full house".data) (lcs e) = true →
        containsSub ("with straight flush".data) (lcs e) = false →
        containsSub ("with four of a kind".data) (lcs e) = false →
        extract_hand_type e = "Full House") ∧
    (∀ e : Entry, firstMatch handTypeMatchers (lcs e) = none →
        extract_hand_type e = "Didn\x27t Show") := by
  constructor
  · intro e h3 h1 h2
    have m1 : matchP1 (lcs e) = none := by
      rw [matchP1, litMatcher_eq, h1]
      rfl
    have m2 : matchP2 (lcs e) = none := by
      rw [matchP2, litMatcher_eq, h2]
      rfl
    have m3 : matchP3 (lcs e) = some ("full house".data) := by
      rw [matchP3, litMatcher_eq, h3]
      rfl
    have hfm : firstMatch handTypeMatchers (lcs e) = some ("full house".data) := by
      simp [handTypeMatchers, firstMatch, m1, m2, m3]
    simp [extract_hand_type, hfm]
    decide
  · intro e hnone
    simp [extract_hand_type, hnone]

/-- C5 witness: a Full House collection entry classifies as
"Full House", and an entry with no hand phrase as "Didn't Show". -/
theorem claim5_witness :
    extract_hand_type entryC5fh = "Full House" ∧
    extract_hand_type entryC5none = "Didn\x27t Show" :=
  ⟨claim5_theorem.1 entryC5fh (by decide) (by decide) (by decide),
   claim5_theorem.2 entryC5none (by decide)⟩

/-- C6: a hand-start marker seen while a hand is open replaces the
state with a fresh hand (empty actions, players and winners), an
empty player set and preflop phase, and leaves the emitted hand list
unchanged, so the previously open hand is discarded without being
appended. -/
theorem claim6_theorem (s : ParseState) (e : Entry) (h : Hand) (n : ℕ)
    (_hcur : s.current = some h) (hst : startMatch e = some n) :
    handsStep s e = ⟨some (freshHand n), [], Phase.preflop, s.hands⟩ := by
  unfold handsStep
  rw [hst]

/-- C6 witness: a second start marker on a state holding an open hand
resets to a fresh hand 2 and appends nothing. -/
theorem claim6_witness :
    handsStep stateC6 entryC6 = ⟨some (freshHand 2), [], Phase.preflop, stateC6.hands⟩ :=
  claim6_theorem stateC6 entryC6 (freshHand 1) 2 rfl (by decide)

/-- C7: when the input ends with a hand still open, parse_hands
appends that hand, carrying the accumulated player set as its
players_dealt, to the output exactly as a hand-end marker would. -/
theorem claim7_theorem (log : List Entry) (h : Hand)
    (hcur : (foldHands log).current = some h) :
    parseHands log =
      (foldHands log).hands ++ [{ h with players_dealt := (foldHands log).players }] := by
  simp only [parseHands]
  rw [hcur]

/-- C7 witness: a log holding only a start marker still produces the
opened hand. -/
theorem claim7_witness :
    parseHands logC7 =
      (foldHands logC7).hands ++ [{ freshHand 1 with players_dealt := (foldHands logC7).players }] :=
  claim7_theorem logC7 (freshHand 1) (by decide)

/-- C8: the reported actual_profit is the rounded value of
final_stack + cash_outs - buy_ins - admin_adjustments, and a player
with buy_ins 100, cash_outs 0, admin_adjustments 0 and final_stack
150 (here produced by a real two-entry session log) reports 50. -/
theorem claim8_theorem :
    (∀ st : PlayerStat,
        (reportFor st).actual_profit =
          round2 (st.final_stack + st.cash_outs - st.buy_ins - st.admin_adjustments)) ∧
    (reportFor ((ledgerPass logC8) "A".data)).actual_profit = 50 := by
  constructor
  · intro st
    show round2 (qsub (qsub (qadd st.final_stack st.cash_outs) st.buy_ins) st.admin_adjustments)
        = round2 (st.final_stack + st.cash_outs - st.buy_ins - st.admin_adjustments)
    rw [qadd_eq, qsub_eq, qsub_eq]
  · decide

/-- C9: after any run, each player's wins counter equals the sum of
the counts stored in that player's hand_types_won mapping; each
winner record increments both by exactly one. -/
theorem claim9_theorem (log : List Entry) (p : Player) :
    ((analyze log) p).wins = sumCounts ((analyze log) p).hand_types_won := by
  have hcounts := ledgerFold_counts log p initStats
  have hw : ((ledgerPass log) p).wins = 0 := hcounts.2.2.1
  have hh : ((ledgerPass log) p).hand_types_won = [] := hcounts.2.2.2
  unfold analyze
  refine calcStats_inv (parseHands log) p (ledgerPass log) ?_
  rw [hw, hh]
  rfl

/-- C10: hand-type extraction is total and always lands in the fixed
eleven-label set, including "High Card" and "Other". -/
theorem claim10_theorem (e : Entry) : extract_hand_type e ∈ handTypeLabels := by
  unfold extract_hand_type
  cases hfm : firstMatch handTypeMatchers (lcs e) with
  | none => simp [handTypeLabels]
  | some g =>
    have hn : normalizeHT g ∈ handTypeLabels := by
      unfold normalizeHT
      split_ifs <;> simp [handTypeLabels]
    simpa using hn

end PokerNow
